import Mathlib

/-!
Shallow embedding of the window-manager core of `src/dwm.cpp` (zwmpp20):
the client/monitor data model, the tiled and monocle layout computations,
tag operations, the focus-history stack, rule application and the
configure-request handler, together with theorems about their behaviour.

Machine integers of the source (`int`, `unsigned int`) are embedded as
unbounded `Int`/`Nat`; the theorems below carry hypotheses keeping all
values in ranges where the C arithmetic does not overflow or wrap, so the
embedding and the source agree on the covered inputs.  The C `float`
master fraction `mfact` is embedded as a rational number; every operation
the source performs on it (comparison, addition, truncating
multiplication) is exact at the small values involved.
-/

namespace Zwm

/-- One managed window, mirroring `struct Client` of `dwm.cpp` (the
`mina`/`maxa` aspect bounds, the X window handle and the intrusive
`next`/`snext`/`mon` pointers are represented externally: lists of
clients stand for the pointer chains, and the owning monitor is passed
explicitly to the operations that need it). -/
structure Client where
  name : String
  x : Int
  y : Int
  w : Int
  h : Int
  oldx : Int
  oldy : Int
  oldw : Int
  oldh : Int
  basew : Int
  baseh : Int
  incw : Int
  inch : Int
  maxw : Int
  maxh : Int
  minw : Int
  minh : Int
  bw : Int
  oldbw : Int
  tags : Nat
  isfixed : Bool
  isfloating : Bool
  isurgent : Bool
  neverfocus : Bool
  oldstate : Bool
  isfullscreen : Bool
deriving DecidableEq, Repr

/-- `Client::full_height()` from the source: `h + 2 * bw`. -/
def Client.full_height (c : Client) : Int := c.h + 2 * c.bw

/-- `Client::full_width()` from the source: `w + 2 * bw`. -/
def Client.full_width (c : Client) : Int := c.w + 2 * c.bw

/-- One monitor, mirroring `struct Monitor` of `dwm.cpp`.  The two-entry
arrays `tagset[2]` and the `seltags`/`sellt` selector bits (values 0/1,
flipped with `^= 1`) are embedded as two fields with a boolean selector.
The client lists and the bar window handle live outside the record. -/
structure Monitor where
  ltsymbol : String
  mfact : ℚ
  nmaster : Int
  num : Int
  bary : Int
  mx : Int
  my : Int
  mw : Int
  mh : Int
  wx : Int
  wy : Int
  ww : Int
  wh : Int
  seltags : Bool
  sellt : Bool
  tagset0 : Nat
  tagset1 : Nat
  showbar : Bool
  topbar : Bool
deriving DecidableEq, Repr

/-- The active tag slot `tagset[seltags]`. -/
def Monitor.curtagset (m : Monitor) : Nat :=
  if m.seltags then m.tagset1 else m.tagset0

/-- Write to the active tag slot `tagset[seltags]`. -/
def Monitor.setCurtagset (m : Monitor) (t : Nat) : Monitor :=
  if m.seltags then { m with tagset1 := t } else { m with tagset0 := t }

/-- A geometry request issued to a client, recording the arguments of one
`resize`/`resizeclient` call: target x, y, width, height. -/
structure Rect where
  x : Int
  y : Int
  w : Int
  h : Int
deriving DecidableEq, Repr

/-- The `ISVISIBLE(C)` macro: `C->tags & C->mon->tagset[C->mon->seltags]`
is nonzero, with the owning monitor's active tag slot passed as `ts`. -/
def isvisible (ts : Nat) (c : Client) : Bool := c.tags &&& ts != 0

/-- The loop filter of both layouts: a client is laid out iff it is not
floating and is visible (the condition `nexttiled` skips). -/
def tiledVis (ts : Nat) (c : Client) : Bool := !c.isfloating && isvisible ts c

/-- `nexttiled` from the source: skip clients that are floating or not
visible, returning the suffix of the stacking list headed by the first
tiled client (empty when none remains). -/
def nexttiled (ts : Nat) : List Client → List Client
  | [] => []
  | c :: rest =>
      if c.isfloating || !isvisible ts c then nexttiled ts rest else c :: rest

/-- The static configuration values `createmon` reads (from `config.hpp`,
which is external data per the spec): default master fraction, master
count, bar flags, and the first layout's symbol. -/
structure Config where
  mfact : ℚ
  nmaster : Int
  showbar : Bool
  topbar : Bool
  sym0 : String

/-- `createmon` from the source: a zero-initialised monitor (the source
uses `calloc`) with `tagset[0] = tagset[1] = 1` and the configured
defaults for `mfact`, `nmaster`, `showbar`, `topbar` and the layout
symbol. -/
def createmon (cfg : Config) : Monitor :=
  { ltsymbol := cfg.sym0
    mfact := cfg.mfact
    nmaster := cfg.nmaster
    num := 0
    bary := 0
    mx := 0, my := 0, mw := 0, mh := 0
    wx := 0, wy := 0, ww := 0, wh := 0
    seltags := false
    sellt := false
    tagset0 := 1
    tagset1 := 1
    showbar := cfg.showbar
    topbar := cfg.topbar }

/-- `incnmaster` from the source:
`selmon->nmaster = std::max(selmon->nmaster + arg->i, 0)`. -/
def incnmaster (i : Int) (m : Monitor) : Monitor :=
  { m with nmaster := max (m.nmaster + i) 0 }

/-- `setmfact` from the source.  `arrangeActive` stands for
`selmon->lt[selmon->sellt]->arrange` being non-null (the guard also
returns when `arg` is null, a case with no argument to model).  The
literals `0.05`/`0.95` become `1/20`/`19/20`. -/
def setmfact (f : ℚ) (arrangeActive : Bool) (m : Monitor) : Monitor :=
  if !arrangeActive then m
  else
    let f2 : ℚ := if f < 1 then f + m.mfact else f - 1
    if f2 < 1/20 ∨ 19/20 < f2 then m else { m with mfact := f2 }

/-- `view` from the source, with `TAGMASK` passed as `tagmask`: return
unchanged when the masked argument equals the active tagset; otherwise
flip `seltags` and, when the masked argument is nonzero, store it in the
newly active slot.  (The `focus`/`arrange` calls touch no tag state.) -/
def view (tagmask ui : Nat) (m : Monitor) : Monitor :=
  if ui &&& tagmask = m.curtagset then m
  else
    let m2 := { m with seltags := !m.seltags }
    if ui &&& tagmask ≠ 0 then m2.setCurtagset (ui &&& tagmask) else m2

/-- `tag` from the source, restricted to its effect on the selected
client's tag mask (the guard `selmon->sel` is the caller passing some
selected client's tags as `selTags`). -/
def tag (tagmask ui : Nat) (selTags : Nat) : Nat :=
  if ui &&& tagmask ≠ 0 then ui &&& tagmask else selTags

/-- `toggletag` from the source, restricted to its effect on the selected
client's tag mask. -/
def toggletag (tagmask ui : Nat) (selTags : Nat) : Nat :=
  let newtags := selTags ^^^ (ui &&& tagmask)
  if newtags ≠ 0 then newtags else selTags

/-- `toggleview` from the source: XOR the masked argument into the active
tag slot unless the result would be zero. -/
def toggleview (tagmask ui : Nat) (m : Monitor) : Monitor :=
  let newtagset := m.curtagset ^^^ (ui &&& tagmask)
  if newtagset ≠ 0 then m.setCurtagset newtagset else m

/-- `resizeclient` from the source, restricted to its effect on the
client record: save the current geometry into the `old*` fields and store
the new one (the `XConfigureWindow`/`configure` calls mutate no client
state). -/
def resizeclient (c : Client) (x y w h : Int) : Client :=
  { c with
    oldx := c.x, x := x
    oldy := c.y, y := y
    oldw := c.w, w := w
    oldh := c.h, h := h }

/-- `setfullscreen` from the source, with the owning monitor passed
explicitly.  Entering fullscreen saves the floating flag and border
width, zeroes the border, marks floating and resizes to the full monitor
rectangle; leaving restores the saved flag, border width and the `old*`
geometry and re-resizes.  (Property writes, raising and `arrange` mutate
no client state.) -/
def setfullscreen (m : Monitor) (c : Client) (fullscreen : Bool) : Client :=
  if fullscreen && !c.isfullscreen then
    let c1 := { c with
      isfullscreen := true
      oldstate := c.isfloating
      oldbw := c.bw
      bw := 0
      isfloating := true }
    resizeclient c1 m.mx m.my m.mw m.mh
  else if !fullscreen && c.isfullscreen then
    let c1 := { c with
      isfullscreen := false
      isfloating := c.oldstate
      bw := c.oldbw
      x := c.oldx
      y := c.oldy
      w := c.oldw
      h := c.oldh }
    resizeclient c1 c1.x c1.y c1.w c1.h
  else c

/-- `detachstack` from the source: unlink `c` from its monitor's
focus-history list (`stack`, linked via `snext`); when `c` was the
monitor's selected client, re-select the first visible client of the
remaining list (`none` when no visible client remains).  The pointer
unlink removes the first occurrence of `c`, embedded as `List.erase`;
`ts` is the monitor's active tag slot used by `ISVISIBLE`. -/
def detachstack (ts : Nat) (c : Client) (stack : List Client)
    (sel : Option Client) : List Client × Option Client :=
  let stack2 := stack.erase c
  if sel = some c then (stack2, stack2.find? (isvisible ts))
  else (stack2, sel)

/-- One window-matching rule from the static `rules` table: `none`
pattern fields are the null "do not care" patterns of the source. -/
structure Rule where
  klass : Option (List Char)
  inst : Option (List Char)
  title : Option (List Char)
  tags : Nat
  isfloating : Bool
  monitor : Int

/-- Whether `pat` is a prefix of `hay` (helper for the `strstr` tests of
`applyrules`). -/
def isPrefixChk : List Char → List Char → Bool
  | [], _ => true
  | _ :: _, [] => false
  | p :: ps, q :: qs => p == q && isPrefixChk ps qs

/-- Whether `pat` occurs as a contiguous substring of `hay`, the
observable behaviour of `strstr(hay, pat) != nullptr` (an empty pattern
always matches). -/
def isSubstr (pat : List Char) : List Char → Bool
  | [] => isPrefixChk pat []
  | q :: qs => isPrefixChk pat (q :: qs) || isSubstr pat qs

/-- The per-rule match test of `applyrules`:
`(!r->title || strstr(c->name, r->title)) && (!r->klass || strstr(klass,
r->klass)) && (!r->instance || strstr(instance, r->instance))`. -/
def matchesRule (name klass inst : List Char) (r : Rule) : Bool :=
  (match r.title with | none => true | some p => isSubstr p name) &&
  (match r.klass with | none => true | some p => isSubstr p klass) &&
  (match r.inst with | none => true | some p => isSubstr p inst)

/-- The rule-scanning loop of `applyrules`, threading the accumulated
`(tags, isfloating, monitor)` triple: each matching rule overwrites the
floating flag, ORs its tag bits in, and retargets the monitor to the
first monitor whose `num` equals the rule's monitor index (unchanged when
no such monitor exists). -/
def applyrulesLoop (name klass inst : List Char) (mons : List Monitor) :
    List Rule → Nat × Bool × Monitor → Nat × Bool × Monitor
  | [], acc => acc
  | r :: rs, acc =>
      applyrulesLoop name klass inst mons rs
        (if matchesRule name klass inst r then
          (acc.1 ||| r.tags, r.isfloating,
            match mons.find? (fun mo => mo.num == r.monitor) with
            | some mo => mo
            | none => acc.2.2)
        else acc)

/-- `applyrules` from the source: starting from `isfloating = 0`,
`tags = 0` and the client's current monitor `mon0`, scan every rule, then
set the final tag mask to the accumulated tags masked by `TAGMASK` when
that is nonzero, and otherwise to the (possibly retargeted) monitor's
active tag slot.  Returns the final `(tags, isfloating, monitor)`. -/
def applyrules (tagmask : Nat) (rules : List Rule) (mons : List Monitor)
    (name klass inst : List Char) (mon0 : Monitor) :
    Nat × Bool × Monitor :=
  let acc := applyrulesLoop name klass inst mons rules (0, false, mon0)
  (if acc.1 &&& tagmask ≠ 0 then acc.1 &&& tagmask else acc.2.2.curtagset,
   acc.2.1, acc.2.2)

/-- One column of the tiled layout: the per-client loop body of `tile`.
At each step the height quantum is
`h = (m->wh - my) / (remaining member count)` and the client is resized
to `(x, wy + my, colw - 2*bw, h - 2*bw)`; the running offset advances by
the client's `full_height()` only while `my + full_height < wh`.  Under
the claims' assumption that `applysizehints` leaves these requests
unchanged, `full_height()` after the resize equals `h`. -/
def placeCol (wh x yb colw : Int) : Int → List Client → List (Client × Rect)
  | _, [] => []
  | my, c :: rest =>
      let h : Int := (wh - my) / ((rest.length + 1 : Nat) : Int)
      (c, ⟨x, yb + my, colw - 2 * c.bw, h - 2 * c.bw⟩) ::
        placeCol wh x yb colw (if my + h < wh then my + h else my) rest

/-- `tile` from the source: count the `nexttiled` clients; when none,
do nothing.  The master width is `ww * mfact` (truncated, float in the
source) when `n > nmaster` and `nmaster` is nonzero, `0` when
`nmaster = 0`, and the full `ww` when `n <= nmaster`.  Clients with index
`i < nmaster` form the master column at `x = wx`, the rest the stack
column at `x = wx + mw`; each column divides the remaining height by the
remaining member count (`std::min(n, m->nmaster) - i` resp. `n - i`).
Returns the list of resize requests in client order. -/
def tile (m : Monitor) (clients : List Client) : List (Client × Rect) :=
  let tcs := clients.filter (tiledVis m.curtagset)
  let n := tcs.length
  if n = 0 then []
  else
    let mw : Int :=
      if m.nmaster < (n : Int) then
        (if m.nmaster ≠ 0 then ⌊(m.ww : ℚ) * m.mfact⌋ else 0)
      else m.ww
    let nm : Nat := min n m.nmaster.toNat
    placeCol m.wh m.wx m.wy mw 0 (tcs.take nm) ++
      placeCol m.wh (m.wx + mw) m.wy (m.ww - mw) 0 (tcs.drop nm)

/-- `monocle` from the source: `n` counts every visible client of the
monitor (`ISVISIBLE`, floating ones included); when `n > 0` the layout
symbol is overwritten with `"[n]"` (the `snprintf` of the source); every
`nexttiled` client is resized to the usable rectangle minus its borders.
Returns the resulting symbol and the list of resize requests. -/
def monocle (m : Monitor) (clients : List Client) :
    String × List (Client × Rect) :=
  let n := (clients.filter (isvisible m.curtagset)).length
  let sym := if 0 < n then "[" ++ toString n ++ "]" else m.ltsymbol
  (sym,
   (clients.filter (tiledVis m.curtagset)).map
     (fun c => (c, ⟨m.wx, m.wy, m.ww - 2 * c.bw, m.wh - 2 * c.bw⟩)))

/-- `CWX` bit of an X configure request's `value_mask`. -/
def CWX : Nat := 1
/-- `CWY` bit of an X configure request's `value_mask`. -/
def CWY : Nat := 2
/-- `CWWidth` bit of an X configure request's `value_mask`. -/
def CWWidth : Nat := 4
/-- `CWHeight` bit of an X configure request's `value_mask`. -/
def CWHeight : Nat := 8
/-- `CWBorderWidth` bit of an X configure request's `value_mask`. -/
def CWBorderWidth : Nat := 16

/-- The fields of an `XConfigureRequestEvent` the handler reads. -/
structure XCRequest where
  valueMask : Nat
  x : Int
  y : Int
  width : Int
  height : Int
  borderWidth : Int
  above : Int
  detail : Int
deriving DecidableEq, Repr

/-- A command the configure-request handler issues to the display
server: a verbatim `XConfigureWindow`, a synthetic `ConfigureNotify`
(the `configure(c)` helper, carrying the client's current geometry), or
an `XMoveResizeWindow`. -/
inductive XCmd
  | configureWindow (mask : Nat) (x y w h bw above detail : Int)
  | syntheticConfigure (x y w h bw : Int)
  | moveResizeWindow (x y w h : Int)
deriving DecidableEq, Repr

/-- `configurerequest` from the source.  `mc` is the result of
`wintoclient` together with the client's monitor; `arrangeActive` stands
for `selmon->lt[selmon->sellt]->arrange` being non-null.  For a managed
client: a request with `CWBorderWidth` set only stores the new border
width; otherwise a floating client (or an inactive arrangement) gets its
fields updated per the mask, is re-centered when pushed past the monitor
edge, receives a synthetic configure for pure moves, and is actually
moved when visible; otherwise only a synthetic configure is sent.  An
unmanaged window's request is forwarded verbatim.  Returns the updated
client (when managed) and the issued commands in order. -/
def configurerequest (arrangeActive : Bool)
    (mc : Option (Client × Monitor)) (ev : XCRequest) :
    Option Client × List XCmd :=
  match mc with
  | none =>
      (none,
       [XCmd.configureWindow ev.valueMask ev.x ev.y ev.width ev.height
          ev.borderWidth ev.above ev.detail])
  | some (c, m) =>
      if ev.valueMask &&& CWBorderWidth ≠ 0 then
        (some { c with bw := ev.borderWidth }, [])
      else if c.isfloating || !arrangeActive then
        let c1 :=
          if ev.valueMask &&& CWX ≠ 0 then
            { c with oldx := c.x, x := m.mx + ev.x } else c
        let c2 :=
          if ev.valueMask &&& CWY ≠ 0 then
            { c1 with oldy := c1.y, y := m.my + ev.y } else c1
        let c3 :=
          if ev.valueMask &&& CWWidth ≠ 0 then
            { c2 with oldw := c2.w, w := ev.width } else c2
        let c4 :=
          if ev.valueMask &&& CWHeight ≠ 0 then
            { c3 with oldh := c3.h, h := ev.height } else c3
        let c5 :=
          if m.mx + m.mw < c4.x + c4.w ∧ c4.isfloating then
            { c4 with x := m.mx + (m.mw / 2 - c4.full_width / 2) } else c4
        let c6 :=
          if m.my + m.mh < c5.y + c5.h ∧ c5.isfloating then
            { c5 with y := m.my + (m.mh / 2 - c5.full_height / 2) } else c5
        let ack :=
          if ev.valueMask &&& (CWX ||| CWY) ≠ 0 ∧
             ev.valueMask &&& (CWWidth ||| CWHeight) = 0 then
            [XCmd.syntheticConfigure c6.x c6.y c6.w c6.h c6.bw]
          else []
        let mv :=
          if isvisible m.curtagset c6 then
            [XCmd.moveResizeWindow c6.x c6.y c6.w c6.h]
          else []
        (some c6, ack ++ mv)
      else (some c, [XCmd.syntheticConfigure c.x c.y c.w c.h c.bw])

/-- The `INTERSECT(x, y, w, h, m)` macro: area of the intersection of the
rectangle with monitor `m`'s window area (each factor clamped at 0). -/
def INTERSECT (x y w h : Int) (m : Monitor) : Int :=
  max 0 (min (x + w) (m.wx + m.ww) - max x m.wx) *
    max 0 (min (y + h) (m.wy + m.wh) - max y m.wy)

/-- The scanning loop of `recttomon`: keep the monitor with the largest
intersection seen so far (strictly larger than the running best). -/
def recttomonGo (x y w h : Int) : Monitor → Int → List Monitor → Monitor
  | r, _, [] => r
  | r, area, m :: rest =>
      let a := INTERSECT x y w h m
      if area < a then recttomonGo x y w h m a rest
      else recttomonGo x y w h r area rest

/-- `recttomon` from the source: starting from `r = selmon`, `area = 0`,
scan all monitors and return the one with the largest intersection,
falling back to `selmon`. -/
def recttomon (selmon : Monitor) (mons : List Monitor)
    (x y w h : Int) : Monitor :=
  recttomonGo x y w h selmon 0 mons

/-- A client record with every field zeroed (tag bit 1 set), the base of
the concrete test fixtures below. -/
def clientBase : Client :=
  { name := "", x := 0, y := 0, w := 0, h := 0
    oldx := 0, oldy := 0, oldw := 0, oldh := 0
    basew := 0, baseh := 0, incw := 0, inch := 0
    maxw := 0, maxh := 0, minw := 0, minh := 0
    bw := 0, oldbw := 0, tags := 1
    isfixed := false, isfloating := false, isurgent := false
    neverfocus := false, oldstate := false, isfullscreen := false }

/-- A monitor fixture: 800x620 screen, 800x600 usable area below a bar,
`mfact = 0.55`, `nmaster = 1`, tag 1 active. -/
def monBase : Monitor :=
  { ltsymbol := "[]=", mfact := 11/20, nmaster := 1, num := 0, bary := 0
    mx := 0, my := 0, mw := 800, mh := 620
    wx := 0, wy := 20, ww := 800, wh := 600
    seltags := false, sellt := false, tagset0 := 1, tagset1 := 1
    showbar := true, topbar := true }

/-- Monitor fixture with `mfact = 0.6`. -/
def monMfact06 : Monitor := { monBase with mfact := 3/5 }

/-- Monitor fixture with `mfact = 0.5`. -/
def monMfact05 : Monitor := { monBase with mfact := 1/2 }

/-- Monitor fixture whose two tag slots differ: slot 0 holds tag 1,
slot 1 holds tag 2, slot 0 active. -/
def monTwoViews : Monitor := { monBase with tagset0 := 1, tagset1 := 2 }

/-- A floating, visible client at `(10, 10, 300, 200)` with border 2. -/
def cFloat1 : Client :=
  { clientBase with x := 10, y := 10, w := 300, h := 200, bw := 2
                    isfloating := true }

/-- A tiled (non-floating), visible client with border width 1. -/
def cTiled1 : Client := { clientBase with bw := 1 }

/-- A configure request setting only the border width (to 5). -/
def evBorder : XCRequest :=
  { valueMask := 16, x := 0, y := 0, width := 0, height := 0
    borderWidth := 5, above := 0, detail := 0 }

/-- The spec's scenario request: position and size `(0, 0, 640, 480)`
(mask `CWX|CWY|CWWidth|CWHeight`). -/
def ev640 : XCRequest :=
  { valueMask := 15, x := 0, y := 0, width := 640, height := 480
    borderWidth := 0, above := 0, detail := 0 }

/-- A stacking list fixture: two tiled visible clients (borders 1 and 2)
and one floating client. -/
def clsW : List Client := [cTiled1, { clientBase with bw := 2 }, cFloat1]

end Zwm

namespace Zwm

/-- Case analysis helper for `setmfact`: either the monitor is returned
unchanged, or the candidate `f2 = (f < 1 ? f + mfact : f - 1)` is inside
`[0.05, 0.95]` and is stored. -/
theorem setmfact_cases (f : ℚ) (act : Bool) (m : Monitor) :
    setmfact f act m = m ∨
    (1/20 ≤ (if f < 1 then f + m.mfact else f - 1) ∧
      (if f < 1 then f + m.mfact else f - 1) ≤ 19/20 ∧
      setmfact f act m
        = { m with mfact := if f < 1 then f + m.mfact else f - 1 }) := by
  unfold setmfact
  by_cases hact : (!act) = true
  · rw [if_pos hact]
    exact Or.inl rfl
  · rw [if_neg hact]
    show (if (if f < 1 then f + m.mfact else f - 1) < 1/20 ∨
            19/20 < (if f < 1 then f + m.mfact else f - 1) then m
          else { m with mfact := if f < 1 then f + m.mfact else f - 1 }) = m ∨ _
    by_cases hout : (if f < 1 then f + m.mfact else f - 1) < 1/20 ∨
        19/20 < (if f < 1 then f + m.mfact else f - 1)
    · rw [if_pos hout]
      exact Or.inl rfl
    · rw [if_neg hout]
      push_neg at hout
      exact Or.inr ⟨hout.1, hout.2, rfl⟩

/-- Claim C9: on every monitor, `nmaster ≥ 0` and `mfact ∈ [0.05, 0.95]`
hold after creation (for in-range configured defaults) and are preserved
by `incnmaster` (which clamps at 0 and leaves `mfact` alone) and by
`setmfact` (which leaves `mfact` unchanged whenever the computed result
is out of range, and leaves `nmaster` alone). -/
theorem nmaster_mfact_invariants (cfg : Config)
    (hn : 0 ≤ cfg.nmaster) (h1 : 1/20 ≤ cfg.mfact) (h2 : cfg.mfact ≤ 19/20) :
    (0 ≤ (createmon cfg).nmaster ∧ 1/20 ≤ (createmon cfg).mfact ∧
      (createmon cfg).mfact ≤ 19/20) ∧
    (∀ (i : Int) (m : Monitor),
      0 ≤ (incnmaster i m).nmaster ∧ (incnmaster i m).mfact = m.mfact) ∧
    (∀ (f : ℚ) (act : Bool) (m : Monitor),
      1/20 ≤ m.mfact → m.mfact ≤ 19/20 →
      (setmfact f act m).nmaster = m.nmaster ∧
      1/20 ≤ (setmfact f act m).mfact ∧
      (setmfact f act m).mfact ≤ 19/20) := by
  refine ⟨⟨hn, h1, h2⟩, ?_, ?_⟩
  · intro i m
    exact ⟨le_max_right _ _, rfl⟩
  · intro f act m hm1 hm2
    rcases setmfact_cases f act m with h | ⟨hlo, hhi, h⟩
    · rw [h]
      exact ⟨rfl, hm1, hm2⟩
    · rw [h]
      exact ⟨rfl, hlo, hhi⟩

/-- Witness for `nmaster_mfact_invariants` at a concrete in-range
configuration. -/
theorem nmaster_mfact_invariants_witness :
    (0 ≤ (⟨11/20, 1, true, true, "[]="⟩ : Config).nmaster ∧
      1/20 ≤ (⟨11/20, 1, true, true, "[]="⟩ : Config).mfact ∧
      (⟨11/20, 1, true, true, "[]="⟩ : Config).mfact ≤ 19/20) ∧
    0 ≤ (createmon ⟨11/20, 1, true, true, "[]="⟩).nmaster ∧
    1/20 ≤ (createmon ⟨11/20, 1, true, true, "[]="⟩).mfact ∧
    (createmon ⟨11/20, 1, true, true, "[]="⟩).mfact ≤ 19/20 := by
  have h := nmaster_mfact_invariants ⟨11/20, 1, true, true, "[]="⟩
    (by norm_num) (by norm_num) (by norm_num)
  exact ⟨⟨by norm_num, by norm_num, by norm_num⟩, h.1⟩

/-- Counterexample to claim C3: the spec's examples do not match the
code.  With `mfact = 0.6`, input `0.5` is treated as a delta (giving
`1.1`, out of range, hence a no-op, not an absolute set to `0.5`); with
`mfact = 0.5`, input `1.1` sets `mfact` absolutely to `0.1`, not to
`0.6`. -/
theorem setmfact_examples_false :
    (setmfact (1/2) true monMfact06).mfact = 3/5 ∧ (3/5 : ℚ) ≠ 1/2 ∧
    (setmfact (11/10) true monMfact05).mfact = 1/10 ∧ (1/10 : ℚ) ≠ 3/5 := by
  refine ⟨?_, by norm_num, ?_, by norm_num⟩ <;>
    · simp only [setmfact, monMfact06, monMfact05, monBase]
      norm_num

/-- Claim C3 as amended: an input `< 1.0` is a delta added to the
current `mfact` (so `0.5` at current `0.6` is a no-op, the sum `1.1`
being out of range) and an input `≥ 1.0` sets `mfact` absolutely to
`input - 1.0` (so `1.1` at current `0.5` yields `0.1`); a result below
`0.05` or above `0.95` leaves `mfact` unchanged, and every update lands
inside `[0.05, 0.95]`. -/
theorem setmfact_amended :
    (setmfact (1/2) true monMfact06).mfact = monMfact06.mfact ∧
    (setmfact (11/10) true monMfact05).mfact = 1/10 ∧
    (∀ f : ℚ, 1 ≤ f → ∀ m : Monitor,
      (setmfact f true m).mfact = m.mfact ∨
        (setmfact f true m).mfact = f - 1) ∧
    (∀ f : ℚ, f < 1 → ∀ m : Monitor,
      (setmfact f true m).mfact = m.mfact ∨
        (setmfact f true m).mfact = f + m.mfact) ∧
    (∀ (f : ℚ) (act : Bool) (m : Monitor),
      (setmfact f act m).mfact = m.mfact ∨
        (1/20 ≤ (setmfact f act m).mfact ∧
          (setmfact f act m).mfact ≤ 19/20)) := by
  refine ⟨?_, ?_, ?_, ?_, ?_⟩
  · simp only [setmfact, monMfact06, monBase]
    norm_num
  · simp only [setmfact, monMfact05, monBase]
    norm_num
  · intro f hf m
    rcases setmfact_cases f true m with h | ⟨hlo, hhi, h⟩
    · exact Or.inl (by rw [h])
    · right
      rw [h]
      show (if f < 1 then f + m.mfact else f - 1) = f - 1
      rw [if_neg (not_lt.mpr hf)]
  · intro f hf m
    rcases setmfact_cases f true m with h | ⟨hlo, hhi, h⟩
    · exact Or.inl (by rw [h])
    · right
      rw [h]
      show (if f < 1 then f + m.mfact else f - 1) = f + m.mfact
      rw [if_pos hf]
  · intro f act m
    rcases setmfact_cases f act m with h | ⟨hlo, hhi, h⟩
    · exact Or.inl (by rw [h])
    · right
      rw [h]
      exact ⟨hlo, hhi⟩

/-- Witness for `setmfact_amended`: its quantified parts evaluated at
concrete inputs (`f = 2` is an absolute set to `1`, out of range, a
no-op; `f = 0.1` at `mfact = 0.5` is a delta giving `0.6`). -/
theorem setmfact_amended_witness :
    ((setmfact 2 true monMfact05).mfact = monMfact05.mfact ∨
      (setmfact 2 true monMfact05).mfact = 2 - 1) ∧
    ((setmfact (1/10) true monMfact05).mfact = monMfact05.mfact ∨
      (setmfact (1/10) true monMfact05).mfact = 1/10 + monMfact05.mfact) ∧
    ((setmfact (1/10) true monMfact05).mfact = monMfact05.mfact ∨
      (1/20 ≤ (setmfact (1/10) true monMfact05).mfact ∧
        (setmfact (1/10) true monMfact05).mfact ≤ 19/20)) :=
  ⟨setmfact_amended.2.2.1 2 (by norm_num) monMfact05,
   setmfact_amended.2.2.2.1 (1/10) (by norm_num) monMfact05,
   setmfact_amended.2.2.2.2 (1/10) true monMfact05⟩

/-- Counterexample to claim C4: `view` with an argument that is zero
after masking is not a no-op — on a monitor whose two tag slots hold
tags 1 and 2 with slot 0 active, it flips `seltags`, changing the
active view from tag 1 to tag 2. -/
theorem view_zero_not_noop :
    view 3 0 monTwoViews ≠ monTwoViews ∧
    (view 3 0 monTwoViews).curtagset = 2 ∧ monTwoViews.curtagset = 1 ∧
    (view 3 0 monTwoViews).seltags ≠ monTwoViews.seltags := by
  have hs : (view 3 0 monTwoViews).seltags = true := rfl
  have hs0 : monTwoViews.seltags = false := rfl
  refine ⟨?_, rfl, rfl, ?_⟩
  · intro h
    rw [h, hs0] at hs
    exact Bool.false_ne_true hs
  · rw [hs, hs0]
    exact fun hh => Bool.false_ne_true hh.symm

/-- Claim C4 as amended: `toggletag` whose masked toggle would zero the
client's tag mask is a no-op, and `tag` with a zero-after-masking
argument is a no-op; `view` with a zero-after-masking argument leaves
both tag slots unchanged but flips the active-slot selector (switching
to the alternate tag view) whenever the active tagset is nonzero — it
is not a no-op. -/
theorem tagops_zero_mask :
    (∀ tagmask ui t : Nat,
      t ^^^ (ui &&& tagmask) = 0 → toggletag tagmask ui t = t) ∧
    (∀ tagmask ui t : Nat, ui &&& tagmask = 0 → tag tagmask ui t = t) ∧
    (∀ (tagmask ui : Nat) (m : Monitor),
      ui &&& tagmask = 0 → m.curtagset ≠ 0 →
      view tagmask ui m = { m with seltags := !m.seltags }) := by
  refine ⟨?_, ?_, ?_⟩
  · intro tagmask ui t h
    simp [toggletag, h]
  · intro tagmask ui t h
    simp [tag, h]
  · intro tagmask ui m h h2
    unfold view
    rw [if_neg (by rw [h]; exact fun hh => h2 hh.symm)]
    simp [h]

/-- Witness for `tagops_zero_mask` at concrete inputs: toggling tag 1
off a client holding only tag 1 is refused; tagging with masked-out
bits is refused; `view 0` on the two-slot fixture flips the selector. -/
theorem tagops_zero_mask_witness :
    toggletag 3 1 1 = 1 ∧ tag 3 4 1 = 1 ∧
    view 3 4 monTwoViews = { monTwoViews with seltags := true } := by
  refine ⟨tagops_zero_mask.1 3 1 1 (by decide),
          tagops_zero_mask.2.1 3 4 1 (by decide), ?_⟩
  have h := tagops_zero_mask.2.2 3 4 monTwoViews (by decide) (by decide)
  have hb : (!monTwoViews.seltags) = true := rfl
  rw [hb] at h
  exact h

/-- Claim C6: re-entering a client's current fullscreen state is a
no-op, and an enter/exit fullscreen round trip with no intervening
resize restores exactly the pre-fullscreen geometry, border width and
floating flag. -/
theorem setfullscreen_idem_roundtrip :
    (∀ (m : Monitor) (c : Client), setfullscreen m c c.isfullscreen = c) ∧
    (∀ (m : Monitor) (c : Client), c.isfullscreen = false →
      (setfullscreen m (setfullscreen m c true) false).x = c.x ∧
      (setfullscreen m (setfullscreen m c true) false).y = c.y ∧
      (setfullscreen m (setfullscreen m c true) false).w = c.w ∧
      (setfullscreen m (setfullscreen m c true) false).h = c.h ∧
      (setfullscreen m (setfullscreen m c true) false).bw = c.bw ∧
      (setfullscreen m (setfullscreen m c true) false).isfloating
        = c.isfloating ∧
      (setfullscreen m (setfullscreen m c true) false).isfullscreen
        = false) := by
  constructor
  · intro m c
    cases hc : c.isfullscreen <;> simp [setfullscreen, hc]
  · intro m c h
    simp [setfullscreen, resizeclient, h]

/-- Witness for `setfullscreen_idem_roundtrip`: the round trip on the
originally-floating client at `(10, 10, 300, 200)`. -/
theorem setfullscreen_idem_roundtrip_witness :
    cFloat1.isfullscreen = false ∧
    (setfullscreen monBase (setfullscreen monBase cFloat1 true) false).x
      = cFloat1.x ∧
    (setfullscreen monBase (setfullscreen monBase cFloat1 true) false).y
      = cFloat1.y ∧
    (setfullscreen monBase (setfullscreen monBase cFloat1 true) false).w
      = cFloat1.w ∧
    (setfullscreen monBase (setfullscreen monBase cFloat1 true) false).h
      = cFloat1.h ∧
    (setfullscreen monBase (setfullscreen monBase cFloat1 true) false).bw
      = cFloat1.bw ∧
    (setfullscreen monBase (setfullscreen monBase cFloat1 true) false).isfloating
      = cFloat1.isfloating ∧
    (setfullscreen monBase (setfullscreen monBase cFloat1 true) false).isfullscreen
      = false :=
  ⟨by decide, setfullscreen_idem_roundtrip.2 monBase cFloat1 (by decide)⟩

/-- Characterisation of a successful `List.find?`: the found element
satisfies the predicate and splits the list so that everything before
it fails the predicate. -/
theorem find?_first {α : Type} (p : α → Bool) :
    ∀ (l : List α) (a : α), l.find? p = some a →
      p a = true ∧
        ∃ l1 l2, l = l1 ++ a :: l2 ∧ ∀ u ∈ l1, p u = false := by
  intro l
  induction l with
  | nil => intro a h; simp [List.find?] at h
  | cons x xs ih =>
    intro a h
    by_cases hx : p x = true
    · rw [List.find?_cons_of_pos _ hx] at h
      obtain rfl : x = a := by injection h
      exact ⟨hx, [], xs, rfl, by intro u hu; simp at hu⟩
    · rw [List.find?_cons_of_neg _ hx] at h
      obtain ⟨hp, l1, l2, hsplit, hall⟩ := ih a h
      refine ⟨hp, x :: l1, l2, by rw [hsplit]; rfl, ?_⟩
      intro u hu
      rcases List.mem_cons.mp hu with rfl | hu2
      · simpa using hx
      · exact hall u hu2

/-- Claim C2: after `detachstack c`, the client `c` is gone from the
focus-history list; when `c` was the selected client, the new selection
is the first visible entry of the remaining list (`none` when no entry
is visible), and an unselected `c` leaves the selection alone — so the
selected client, when present, is the first visible entry reachable
from the focus-history head. -/
theorem detachstack_spec (ts : Nat) (c : Client) (stack : List Client)
    (sel : Option Client) (hnd : stack.Nodup) :
    c ∉ (detachstack ts c stack sel).1 ∧
    (sel ≠ some c → (detachstack ts c stack sel).2 = sel) ∧
    (sel = some c →
      ((detachstack ts c stack sel).2 = none →
        ∀ t ∈ (detachstack ts c stack sel).1, isvisible ts t = false) ∧
      (∀ t, (detachstack ts c stack sel).2 = some t →
        isvisible ts t = true ∧
        ∃ l1 l2, (detachstack ts c stack sel).1 = l1 ++ t :: l2 ∧
          ∀ u ∈ l1, isvisible ts u = false)) := by
  have h1 : (detachstack ts c stack sel).1 = stack.erase c := by
    unfold detachstack
    split_ifs <;> rfl
  refine ⟨?_, ?_, ?_⟩
  · intro hmem
    rw [h1] at hmem
    exact ((hnd.mem_erase_iff.mp hmem).1 rfl).elim
  · intro hne
    unfold detachstack
    rw [if_neg hne]
  · intro hsel
    have h2 : (detachstack ts c stack sel).2
        = (stack.erase c).find? (isvisible ts) := by
      unfold detachstack
      rw [if_pos hsel]
    constructor
    · intro hnone t hmem
      rw [h2] at hnone
      rw [h1] at hmem
      have := List.find?_eq_none.mp hnone t hmem
      simpa using this
    · intro t hfound
      rw [h2] at hfound
      obtain ⟨hp, l1, l2, hsplit, hall⟩ := find?_first (isvisible ts) _ t hfound
      exact ⟨hp, l1, l2, by rw [h1, hsplit], hall⟩

/-- Witness for `detachstack_spec`: removing the selected client from a
three-client focus history whose next entry is invisible selects the
later visible one. -/
theorem detachstack_spec_witness :
    ({ clientBase with name := "a" } : Client)
      ∉ (detachstack 1 { clientBase with name := "a" }
          [{ clientBase with name := "a" },
           { clientBase with name := "b", tags := 2 },
           { clientBase with name := "c" }]
          (some { clientBase with name := "a" })).1 ∧
    (∀ t, (detachstack 1 { clientBase with name := "a" }
          [{ clientBase with name := "a" },
           { clientBase with name := "b", tags := 2 },
           { clientBase with name := "c" }]
          (some { clientBase with name := "a" })).2 = some t →
      isvisible 1 t = true ∧
      ∃ l1 l2, (detachstack 1 { clientBase with name := "a" }
          [{ clientBase with name := "a" },
           { clientBase with name := "b", tags := 2 },
           { clientBase with name := "c" }]
          (some { clientBase with name := "a" })).1 = l1 ++ t :: l2 ∧
        ∀ u ∈ l1, isvisible 1 u = false) := by
  have h := detachstack_spec 1 { clientBase with name := "a" }
    [{ clientBase with name := "a" },
     { clientBase with name := "b", tags := 2 },
     { clientBase with name := "c" }]
    (some { clientBase with name := "a" }) (by decide)
  exact ⟨h.1, (h.2.2 rfl).2⟩

/-- The intersection area computed by `INTERSECT` is never negative. -/
theorem INTERSECT_nonneg (x y w h : Int) (m : Monitor) :
    0 ≤ INTERSECT x y w h m :=
  mul_nonneg (le_max_left _ _) (le_max_left _ _)

/-- Invariant of the `recttomon` scanning loop: either the running best
is returned and nothing in the list beats the running area, or the
result comes from the list, strictly beats the running area, and is
maximal among the list's intersections. -/
theorem recttomonGo_cases (x y w h : Int) :
    ∀ (l : List Monitor) (r : Monitor) (area : Int),
      (recttomonGo x y w h r area l = r ∧
        ∀ m ∈ l, INTERSECT x y w h m ≤ area) ∨
      (recttomonGo x y w h r area l ∈ l ∧
        area < INTERSECT x y w h (recttomonGo x y w h r area l) ∧
        ∀ m ∈ l, INTERSECT x y w h m
          ≤ INTERSECT x y w h (recttomonGo x y w h r area l)) := by
  intro l
  induction l with
  | nil =>
    intro r area
    left
    exact ⟨rfl, by intro m hm; simp at hm⟩
  | cons mhd rest ih =>
    intro r area
    by_cases hgt : area < INTERSECT x y w h mhd
    · have hstep : recttomonGo x y w h r area (mhd :: rest)
          = recttomonGo x y w h mhd (INTERSECT x y w h mhd) rest := by
        simp [recttomonGo, hgt]
      rcases ih mhd (INTERSECT x y w h mhd) with ⟨heq, hall⟩ | ⟨hmem, hlt, hall⟩
      · right
        rw [hstep, heq]
        refine ⟨List.mem_cons_self _ _, hgt, ?_⟩
        intro m hm
        rcases List.mem_cons.mp hm with rfl | hm2
        · exact le_refl _
        · exact hall m hm2
      · right
        rw [hstep]
        refine ⟨List.mem_cons_of_mem _ hmem, lt_trans hgt hlt, ?_⟩
        intro m hm
        rcases List.mem_cons.mp hm with rfl | hm2
        · exact le_of_lt hlt
        · exact hall m hm2
    · have hstep : recttomonGo x y w h r area (mhd :: rest)
          = recttomonGo x y w h r area rest := by
        simp [recttomonGo, hgt]
      rcases ih r area with ⟨heq, hall⟩ | ⟨hmem, hlt, hall⟩
      · left
        rw [hstep, heq]
        refine ⟨rfl, ?_⟩
        intro m hm
        rcases List.mem_cons.mp hm with rfl | hm2
        · exact not_lt.mp hgt
        · exact hall m hm2
      · right
        rw [hstep]
        refine ⟨List.mem_cons_of_mem _ hmem, hlt, ?_⟩
        intro m hm
        rcases List.mem_cons.mp hm with rfl | hm2
        · exact le_of_lt (lt_of_le_of_lt (not_lt.mp hgt) hlt)
        · exact hall m hm2

/-- Claim C10: `recttomon` always returns a monitor — the selected one
when no monitor's window area intersects the rectangle with positive
area, and otherwise a monitor from the list whose intersection is
positive and maximal. -/
theorem recttomon_spec (selmon : Monitor) (mons : List Monitor)
    (x y w h : Int) :
    (recttomon selmon mons x y w h = selmon ∧
      ∀ m ∈ mons, INTERSECT x y w h m = 0) ∨
    (recttomon selmon mons x y w h ∈ mons ∧
      0 < INTERSECT x y w h (recttomon selmon mons x y w h) ∧
      ∀ m ∈ mons, INTERSECT x y w h m
        ≤ INTERSECT x y w h (recttomon selmon mons x y w h)) := by
  rcases recttomonGo_cases x y w h mons selmon 0 with ⟨heq, hall⟩ | hr
  · left
    refine ⟨heq, ?_⟩
    intro m hm
    exact le_antisymm (hall m hm) (INTERSECT_nonneg x y w h m)
  · right
    exact hr

/-- Witness for `recttomon_spec`: two monitors side by side, a rectangle
inside the second one. -/
theorem recttomon_spec_witness :
    (recttomon monBase [monBase, { monBase with num := 1, wx := 800 }]
        900 100 50 50 = monBase ∧
      ∀ m ∈ [monBase, { monBase with num := 1, wx := 800 }],
        INTERSECT 900 100 50 50 m = 0) ∨
    (recttomon monBase [monBase, { monBase with num := 1, wx := 800 }]
        900 100 50 50 ∈ [monBase, { monBase with num := 1, wx := 800 }] ∧
      0 < INTERSECT 900 100 50 50
        (recttomon monBase [monBase, { monBase with num := 1, wx := 800 }]
          900 100 50 50) ∧
      ∀ m ∈ [monBase, { monBase with num := 1, wx := 800 }],
        INTERSECT 900 100 50 50 m
          ≤ INTERSECT 900 100 50 50
            (recttomon monBase [monBase, { monBase with num := 1, wx := 800 }]
              900 100 50 50)) :=
  recttomon_spec monBase [monBase, { monBase with num := 1, wx := 800 }]
    900 100 50 50

/-- Counterexample to claim C5: the count `n` shown in the monocle
layout symbol is the number of visible clients including floating ones,
not the number of visible tiled clients.  A lone visible floating
client yields zero tiled-visible clients, so per the claim the symbol
would stay `"[]="`, yet the code overwrites it with `"[1]"`. -/
theorem monocle_symbol_counts_floating :
    (monocle monBase [{ clientBase with isfloating := true }]).1 = "[1]" ∧
    ([{ clientBase with isfloating := true }].filter
      (tiledVis monBase.curtagset)).length = 0 ∧
    monBase.ltsymbol = "[]=" ∧ ("[]=" : String) ≠ "[1]" :=
  ⟨rfl, rfl, rfl, by decide⟩

/-- Claim C5 as amended: `monocle` resizes every tiled-visible client to
the full usable rectangle minus twice its border width, and overwrites
the layout symbol with `"[n]"` where `n` is the number of visible
clients (floating ones included) whenever that count is positive,
leaving the symbol alone when it is zero. -/
theorem monocle_spec (m : Monitor) (clients : List Client) :
    ((monocle m clients).2.map Prod.fst
      = clients.filter (tiledVis m.curtagset)) ∧
    (∀ p ∈ (monocle m clients).2,
      p.2.x = m.wx ∧ p.2.y = m.wy ∧
      p.2.w = m.ww - 2 * p.1.bw ∧ p.2.h = m.wh - 2 * p.1.bw) ∧
    (0 < (clients.filter (isvisible m.curtagset)).length →
      (monocle m clients).1
        = "[" ++ toString (clients.filter (isvisible m.curtagset)).length
            ++ "]") ∧
    ((clients.filter (isvisible m.curtagset)).length = 0 →
      (monocle m clients).1 = m.ltsymbol) := by
  refine ⟨?_, ?_, ?_, ?_⟩
  · simp only [monocle, List.map_map]
    exact List.map_id _ ▸ List.map_congr_left (fun c _ => rfl)
  · intro p hp
    simp only [monocle, List.mem_map] at hp
    obtain ⟨c, hc, rfl⟩ := hp
    exact ⟨rfl, rfl, rfl, rfl⟩
  · intro hpos
    simp only [monocle]
    rw [if_pos hpos]
  · intro hzero
    simp only [monocle]
    rw [if_neg (by rw [hzero]; exact lt_irrefl 0)]

/-- Witness for `monocle_spec`: one tiled visible client on the base
monitor. -/
theorem monocle_spec_witness :
    ((monocle monBase [cTiled1]).2.map Prod.fst
      = [cTiled1].filter (tiledVis monBase.curtagset)) ∧
    (∀ p ∈ (monocle monBase [cTiled1]).2,
      p.2.x = monBase.wx ∧ p.2.y = monBase.wy ∧
      p.2.w = monBase.ww - 2 * p.1.bw ∧
      p.2.h = monBase.wh - 2 * p.1.bw) ∧
    (0 < ([cTiled1].filter (isvisible monBase.curtagset)).length →
      (monocle monBase [cTiled1]).1
        = "[" ++ toString
            ([cTiled1].filter (isvisible monBase.curtagset)).length
            ++ "]") ∧
    (([cTiled1].filter (isvisible monBase.curtagset)).length = 0 →
      (monocle monBase [cTiled1]).1 = monBase.ltsymbol) :=
  monocle_spec monBase [cTiled1]

/-- Counterexample to claim C7: a configure request whose mask contains
`CWBorderWidth` does change a managed, tiled client under an active
arrangement — its stored border width is overwritten — and no synthetic
configure-notify is sent at all. -/
theorem configurerequest_borderwidth_not_ignored :
    (configurerequest true (some (cTiled1, monBase)) evBorder).1
      = some { clientBase with bw := 5 } ∧
    ({ clientBase with bw := 5 } : Client) ≠ cTiled1 ∧
    cTiled1.isfloating = false ∧ cTiled1.bw = 1 ∧
    (configurerequest true (some (cTiled1, monBase)) evBorder).2 = [] :=
  ⟨rfl, by decide, rfl, rfl, rfl⟩

/-- Claim C7 as amended: an unmanaged window's configure request is
forwarded verbatim (all fields unchanged); a managed, non-floating
client under an active arrangement whose request does not touch the
border width is left entirely unchanged and receives only a synthetic
configure-notify acknowledgment carrying its current geometry. -/
theorem configurerequest_spec :
    (∀ (act : Bool) (ev : XCRequest),
      configurerequest act none ev
        = (none,
           [XCmd.configureWindow ev.valueMask ev.x ev.y ev.width ev.height
              ev.borderWidth ev.above ev.detail])) ∧
    (∀ (c : Client) (m : Monitor) (ev : XCRequest),
      ev.valueMask &&& CWBorderWidth = 0 → c.isfloating = false →
      configurerequest true (some (c, m)) ev
        = (some c, [XCmd.syntheticConfigure c.x c.y c.w c.h c.bw])) := by
  constructor
  · intro act ev
    rfl
  · intro c m ev hbw hfl
    simp [configurerequest, hbw, hfl]

/-- Witness for `configurerequest_spec`: the `(0, 0, 640, 480)` scenario
request on an unmanaged window and on a managed tiled client. -/
theorem configurerequest_spec_witness :
    configurerequest true none ev640
      = (none,
         [XCmd.configureWindow ev640.valueMask ev640.x ev640.y ev640.width
            ev640.height ev640.borderWidth ev640.above ev640.detail]) ∧
    configurerequest true (some (cTiled1, monBase)) ev640
      = (some cTiled1,
         [XCmd.syntheticConfigure cTiled1.x cTiled1.y cTiled1.w cTiled1.h
            cTiled1.bw]) :=
  ⟨configurerequest_spec.1 true ev640,
   configurerequest_spec.2 cTiled1 monBase ev640 (by decide) (by decide)⟩

/-- The accumulated tag mask of the rule-scanning loop is the OR of the
tag bits of the matching rules. -/
theorem applyrulesLoop_tags (name klass inst : List Char)
    (mons : List Monitor) :
    ∀ (rs : List Rule) (acc : Nat × Bool × Monitor),
      (applyrulesLoop name klass inst mons rs acc).1
        = (rs.filter (matchesRule name klass inst)).foldl
            (fun a r => a ||| r.tags) acc.1 := by
  intro rs
  induction rs with
  | nil => intro acc; rfl
  | cons r rest ih =>
    intro acc
    by_cases hm : matchesRule name klass inst r = true
    · rw [show applyrulesLoop name klass inst mons (r :: rest) acc
          = applyrulesLoop name klass inst mons rest
              (acc.1 ||| r.tags, r.isfloating,
                match mons.find? (fun mo => mo.num == r.monitor) with
                | some mo => mo
                | none => acc.2.2) from by simp [applyrulesLoop, hm],
        List.filter_cons, if_pos hm, List.foldl_cons, ih]
    · rw [show applyrulesLoop name klass inst mons (r :: rest) acc
          = applyrulesLoop name klass inst mons rest acc from by
            simp [applyrulesLoop, hm],
        List.filter_cons, if_neg hm, ih]

/-- The accumulated floating flag of the rule-scanning loop is that of
the last matching rule (unchanged when none matches). -/
theorem applyrulesLoop_floating (name klass inst : List Char)
    (mons : List Monitor) :
    ∀ (rs : List Rule) (acc : Nat × Bool × Monitor),
      (applyrulesLoop name klass inst mons rs acc).2.1
        = (match (rs.filter (matchesRule name klass inst)).getLast? with
           | none => acc.2.1
           | some r => r.isfloating) := by
  intro rs
  induction rs with
  | nil => intro acc; rfl
  | cons r rest ih =>
    intro acc
    by_cases hm : matchesRule name klass inst r = true
    · rw [show applyrulesLoop name klass inst mons (r :: rest) acc
          = applyrulesLoop name klass inst mons rest
              (acc.1 ||| r.tags, r.isfloating,
                match mons.find? (fun mo => mo.num == r.monitor) with
                | some mo => mo
                | none => acc.2.2) from by simp [applyrulesLoop, hm],
        List.filter_cons, if_pos hm, ih]
      cases hfil : rest.filter (matchesRule name klass inst) with
      | nil => rfl
      | cons f0 frest => rw [List.getLast?_cons_cons, List.getLast?_cons]
    · rw [show applyrulesLoop name klass inst mons (r :: rest) acc
          = applyrulesLoop name klass inst mons rest acc from by
            simp [applyrulesLoop, hm],
        List.filter_cons, if_neg hm, ih]

/-- The rule-scanning loop is the identity when no rule matches. -/
theorem applyrulesLoop_nomatch (name klass inst : List Char)
    (mons : List Monitor) :
    ∀ (rs : List Rule) (acc : Nat × Bool × Monitor),
      (∀ r ∈ rs, matchesRule name klass inst r = false) →
      applyrulesLoop name klass inst mons rs acc = acc := by
  intro rs
  induction rs with
  | nil => intro acc _; rfl
  | cons r rest ih =>
    intro acc hall
    have hm : matchesRule name klass inst r = false :=
      hall r (List.mem_cons_self _ _)
    rw [show applyrulesLoop name klass inst mons (r :: rest) acc
        = applyrulesLoop name klass inst mons rest acc from by
          simp [applyrulesLoop, hm]]
    exact ih acc (fun r2 h2 => hall r2 (List.mem_cons_of_mem _ h2))

/-- Claim C8: `applyrules` assigns the OR of the tag bits of every
matching rule, masked by `TAGMASK` (falling back to the owning monitor's
active tag slot when the masked OR is zero), together with the floating
flag of the last matching rule; a window whose class contains `"Foo"`
against the single rule `(class "Foo", tags 2, floating)` ends up with
tags 2 and floating set; a window matching no rule keeps its monitor and
gets that monitor's active tag slot with floating unset. -/
theorem applyrules_spec :
    (∀ (tagmask : Nat) (rules : List Rule) (mons : List Monitor)
        (name klass inst : List Char) (mon0 : Monitor),
      ((applyrules tagmask rules mons name klass inst mon0).1
        = if ((rules.filter (matchesRule name klass inst)).foldl
              (fun a r => a ||| r.tags) 0) &&& tagmask ≠ 0
          then ((rules.filter (matchesRule name klass inst)).foldl
              (fun a r => a ||| r.tags) 0) &&& tagmask
          else (applyrules tagmask rules mons name klass inst
              mon0).2.2.curtagset) ∧
      ((applyrules tagmask rules mons name klass inst mon0).2.1
        = match (rules.filter (matchesRule name klass inst)).getLast? with
          | none => false
          | some r => r.isfloating) ∧
      ((∀ r ∈ rules, matchesRule name klass inst r = false) →
        applyrules tagmask rules mons name klass inst mon0
          = (mon0.curtagset, false, mon0))) ∧
    (∀ (tagmask : Nat) (mons : List Monitor)
        (name klass inst : List Char) (mon0 : Monitor),
      isSubstr "Foo".toList klass = true → 2 &&& tagmask = 2 →
      (applyrules tagmask
          [⟨some "Foo".toList, none, none, 2, true, 0⟩] mons
          name klass inst mon0).1 = 2 ∧
      (applyrules tagmask
          [⟨some "Foo".toList, none, none, 2, true, 0⟩] mons
          name klass inst mon0).2.1 = true) := by
  constructor
  · intro tagmask rules mons name klass inst mon0
    refine ⟨?_, ?_, ?_⟩
    · have htags := applyrulesLoop_tags name klass inst mons rules
        (0, false, mon0)
      show (if (applyrulesLoop name klass inst mons rules
              (0, false, mon0)).1 &&& tagmask ≠ 0
            then (applyrulesLoop name klass inst mons rules
              (0, false, mon0)).1 &&& tagmask
            else (applyrulesLoop name klass inst mons rules
              (0, false, mon0)).2.2.curtagset) = _
      rw [htags]
      rfl
    · exact applyrulesLoop_floating name klass inst mons rules
        (0, false, mon0)
    · intro hnone
      have hl := applyrulesLoop_nomatch name klass inst mons rules
        (0, false, mon0) hnone
      show (if (applyrulesLoop name klass inst mons rules
              (0, false, mon0)).1 &&& tagmask ≠ 0
            then _ else _,
            (applyrulesLoop name klass inst mons rules (0, false, mon0)).2.1,
            (applyrulesLoop name klass inst mons rules
              (0, false, mon0)).2.2) = _
      rw [hl]
      simp
  · intro tagmask mons name klass inst mon0 hFoo h2
    have hm : matchesRule name klass inst
        ⟨some ['F', 'o', 'o'], none, none, 2, true, 0⟩ = true := by
      have hFoo3 : isSubstr ['F', 'o', 'o'] klass = true := hFoo
      simp [matchesRule, hFoo3]
    constructor
    · show (if (applyrulesLoop name klass inst mons
            [⟨some "Foo".toList, none, none, 2, true, 0⟩]
            (0, false, mon0)).1 &&& tagmask ≠ 0
          then (applyrulesLoop name klass inst mons
            [⟨some "Foo".toList, none, none, 2, true, 0⟩]
            (0, false, mon0)).1 &&& tagmask
          else (applyrulesLoop name klass inst mons
            [⟨some "Foo".toList, none, none, 2, true, 0⟩]
            (0, false, mon0)).2.2.curtagset) = 2
      rw [show (applyrulesLoop name klass inst mons
          [⟨some "Foo".toList, none, none, 2, true, 0⟩]
          (0, false, mon0)).1 = 2 from by simp [applyrulesLoop, hm]]
      rw [h2]
      simp
    · show (applyrulesLoop name klass inst mons
          [⟨some "Foo".toList, none, none, 2, true, 0⟩]
          (0, false, mon0)).2.1 = true
      simp [applyrulesLoop, hm]

/-- Witness for `applyrules_spec`: a window of class `"XFoo"` against
the single `"Foo"` rule with `TAGMASK = 3` gets tags 2 and floating. -/
theorem applyrules_spec_witness :
    (applyrules 3 [⟨some "Foo".toList, none, none, 2, true, 0⟩] []
        [] "XFoo".toList [] monBase).1 = 2 ∧
    (applyrules 3 [⟨some "Foo".toList, none, none, 2, true, 0⟩] []
        [] "XFoo".toList [] monBase).2.1 = true :=
  applyrules_spec.2 3 [] [] "XFoo".toList [] monBase (by decide) (by decide)

/-- `placeCol` of an empty column is empty. -/
theorem placeCol_nil (wh x yb cw my : Int) :
    placeCol wh x yb cw my [] = [] := rfl

/-- Unfolding equation for one `placeCol` step. -/
theorem placeCol_cons (wh x yb cw my : Int) (c : Client)
    (rest : List Client) :
    placeCol wh x yb cw my (c :: rest)
      = (c, ⟨x, yb + my, cw - 2 * c.bw,
          (wh - my) / ((rest.length + 1 : Nat) : Int) - 2 * c.bw⟩) ::
        placeCol wh x yb cw
          (if my + (wh - my) / ((rest.length + 1 : Nat) : Int) < wh
           then my + (wh - my) / ((rest.length + 1 : Nat) : Int) else my)
          rest := rfl

/-- The clients of a `placeCol` column, in order, are exactly the input
list. -/
theorem placeCol_map_fst (wh x yb cw : Int) :
    ∀ (my : Int) (l : List Client),
      (placeCol wh x yb cw my l).map Prod.fst = l := by
  intro my l
  induction l generalizing my with
  | nil => rfl
  | cons c rest ih => simp [placeCol_cons, ih]

/-- A `placeCol` column has one entry per client. -/
theorem placeCol_len (wh x yb cw my : Int) (l : List Client) :
    (placeCol wh x yb cw my l).length = l.length := by
  have h := congrArg List.length (placeCol_map_fst wh x yb cw my l)
  simpa using h

/-- Every entry of a `placeCol` column sits at the column's x position
with the column width minus twice its border width. -/
theorem placeCol_x_w (wh x yb cw : Int) :
    ∀ (my : Int) (l : List Client), ∀ p ∈ placeCol wh x yb cw my l,
      p.2.x = x ∧ p.2.w = cw - 2 * p.1.bw := by
  intro my l
  induction l generalizing my with
  | nil => intro p hp; simp [placeCol] at hp
  | cons c rest ih =>
    intro p hp
    rw [placeCol_cons] at hp
    rcases List.mem_cons.mp hp with rfl | hp2
    · exact ⟨rfl, rfl⟩
    · exact ih _ p hp2

/-- Euclidean division of a positive integer by a divisor of at least
two strictly shrinks it. -/
theorem ediv_lt_of_two_le {a d : Int} (ha : 0 < a) (hd : 2 ≤ d) :
    a / d < a := by
  have h0 : 0 ≤ a / d := Int.ediv_nonneg (le_of_lt ha) (by omega)
  have hmod : 0 ≤ a % d := Int.emod_nonneg a (by omega)
  have heq : d * (a / d) + a % d = a := Int.ediv_add_emod a d
  rcases eq_or_lt_of_le h0 with h | h
  · exact h ▸ ha
  · have h2 : 2 * (a / d) ≤ d * (a / d) :=
      mul_le_mul_of_nonneg_right hd h0
    linarith

/-- Key rounding property of the incremental column layout: the full
heights (request height plus twice the border, i.e. the per-step quantum
`(wh - my) / remaining`) of a nonempty column starting at offset
`my ∈ [0, wh]` sum to exactly `wh - my` — the remainder of each integer
division is absorbed by later members, with no accumulated drift. -/
theorem placeCol_sum (wh x yb cw : Int) :
    ∀ (l : List Client) (my : Int), 0 ≤ my → my ≤ wh → l ≠ [] →
      ((placeCol wh x yb cw my l).map
          (fun p => p.2.h + 2 * p.1.bw)).sum = wh - my := by
  intro l
  induction l with
  | nil => intro my _ _ hne; exact (hne rfl).elim
  | cons c rest ih =>
    intro my h0 h1 _
    cases rest with
    | nil =>
      rw [placeCol_cons]
      simp [placeCol]
    | cons c2 rest2 =>
      have hlen : (c2 :: rest2).length = rest2.length + 1 := rfl
      have hd2 : (2 : Int) ≤ (((c2 :: rest2).length + 1 : Nat) : Int) := by
        rw [hlen]
        push_cast
        omega
      have hh0 : 0 ≤ (wh - my) / (((c2 :: rest2).length + 1 : Nat) : Int) :=
        Int.ediv_nonneg (by omega) (by omega)
      by_cases hadv :
          my + (wh - my) / (((c2 :: rest2).length + 1 : Nat) : Int) < wh
      · rw [placeCol_cons, if_pos hadv, List.map_cons, List.sum_cons,
          ih _ (by omega) (by omega) (List.cons_ne_nil _ _)]
        dsimp only
        omega
      · have hle : (wh - my) / (((c2 :: rest2).length + 1 : Nat) : Int)
            ≤ wh - my := Int.ediv_le_self _ (by omega)
        have hq0 : (wh - my) / (((c2 :: rest2).length + 1 : Nat) : Int) = 0
            ∧ wh - my = 0 := by
          rcases eq_or_lt_of_le (show (0 : Int) ≤ wh - my by omega) with
            hz | hpos2
          · constructor
            · rw [← hz, Int.zero_ediv]
            · omega
          · exact absurd (ediv_lt_of_two_le hpos2 hd2) (by omega)
        rw [placeCol_cons, if_neg hadv, List.map_cons, List.sum_cons,
          ih _ h0 h1 (List.cons_ne_nil _ _)]
        dsimp only
        omega

/-- `tile` lays out nothing when no tiled-visible client exists. -/
theorem tile_nil (m : Monitor) (clients : List Client)
    (hn : (clients.filter (tiledVis m.curtagset)).length = 0) :
    tile m clients = [] := by
  simp only [tile]
  rw [if_pos hn]

/-- Unfolding equation for `tile` with at least one tiled-visible
client: a master column over the first `min n nmaster` clients and a
stack column over the rest. -/
theorem tile_pos (m : Monitor) (clients : List Client)
    (hn : (clients.filter (tiledVis m.curtagset)).length ≠ 0) :
    tile m clients
      = placeCol m.wh m.wx m.wy
          (if m.nmaster < ((clients.filter (tiledVis m.curtagset)).length : Int)
           then (if m.nmaster ≠ 0 then ⌊(m.ww : ℚ) * m.mfact⌋ else 0)
           else m.ww) 0
          ((clients.filter (tiledVis m.curtagset)).take
            (min (clients.filter (tiledVis m.curtagset)).length
              m.nmaster.toNat)) ++
        placeCol m.wh
          (m.wx +
            (if m.nmaster
                < ((clients.filter (tiledVis m.curtagset)).length : Int)
             then (if m.nmaster ≠ 0 then ⌊(m.ww : ℚ) * m.mfact⌋ else 0)
             else m.ww)) m.wy
          (m.ww -
            (if m.nmaster
                < ((clients.filter (tiledVis m.curtagset)).length : Int)
             then (if m.nmaster ≠ 0 then ⌊(m.ww : ℚ) * m.mfact⌋ else 0)
             else m.ww)) 0
          ((clients.filter (tiledVis m.curtagset)).drop
            (min (clients.filter (tiledVis m.curtagset)).length
              m.nmaster.toNat)) := by
  simp only [tile]
  rw [if_neg hn]

/-- Claim C1: for the tiled layout with `n` tiled-visible clients and
`m = nmaster` (assuming `applysizehints` leaves the requests unchanged
and the usable height is nonnegative): the laid-out clients are exactly
the `nexttiled` clients in stacking order; when `n ≤ m` every client
sits in one column at `x = wx` spanning the full usable width and the
full heights sum to exactly `wh`; when `n > m > 0` the first `m`
clients form a master column at `x = wx` of full width
`⌊ww * mfact⌋` and the rest the complement column at `x = wx + mw` of
full width `ww - mw`, each column's full heights again summing to
exactly `wh` — no accumulated rounding drift. -/
theorem tile_ok (m : Monitor) (clients : List Client) (hwh : 0 ≤ m.wh) :
    ((tile m clients).map Prod.fst
      = clients.filter (tiledVis m.curtagset)) ∧
    ((((clients.filter (tiledVis m.curtagset)).length : Int) ≤ m.nmaster →
      (∀ p ∈ tile m clients,
        p.2.x = m.wx ∧ p.2.w + 2 * p.1.bw = m.ww) ∧
      (clients.filter (tiledVis m.curtagset) ≠ [] →
        ((tile m clients).map (fun p => p.2.h + 2 * p.1.bw)).sum
          = m.wh))) ∧
    (m.nmaster < ((clients.filter (tiledVis m.curtagset)).length : Int) →
      0 < m.nmaster →
      (∀ p ∈ (tile m clients).take m.nmaster.toNat,
        p.2.x = m.wx ∧
        p.2.w + 2 * p.1.bw = ⌊(m.ww : ℚ) * m.mfact⌋) ∧
      (∀ p ∈ (tile m clients).drop m.nmaster.toNat,
        p.2.x = m.wx + ⌊(m.ww : ℚ) * m.mfact⌋ ∧
        p.2.w + 2 * p.1.bw = m.ww - ⌊(m.ww : ℚ) * m.mfact⌋) ∧
      (((tile m clients).take m.nmaster.toNat).map
          (fun p => p.2.h + 2 * p.1.bw)).sum = m.wh ∧
      (((tile m clients).drop m.nmaster.toNat).map
          (fun p => p.2.h + 2 * p.1.bw)).sum = m.wh) := by
  refine ⟨?_, ?_, ?_⟩
  · by_cases hn : (clients.filter (tiledVis m.curtagset)).length = 0
    · rw [tile_nil m clients hn]
      exact (List.length_eq_zero.mp hn).symm ▸ rfl
    · rw [tile_pos m clients hn, List.map_append, placeCol_map_fst,
        placeCol_map_fst, List.take_append_drop]
  · intro hle
    by_cases hn : (clients.filter (tiledVis m.curtagset)).length = 0
    · constructor
      · intro p hp
        rw [tile_nil m clients hn] at hp
        exact absurd hp (List.not_mem_nil p)
      · intro habs
        exact absurd (List.length_eq_zero.mp hn) habs
    · have hta : (clients.filter (tiledVis m.curtagset)).length
          ≤ m.nmaster.toNat := by omega
      have hmw :
          (if m.nmaster
              < ((clients.filter (tiledVis m.curtagset)).length : Int)
           then (if m.nmaster ≠ 0 then ⌊(m.ww : ℚ) * m.mfact⌋ else 0)
           else m.ww) = m.ww := if_neg (not_lt.mpr hle)
      rw [tile_pos m clients hn, hmw, min_eq_left hta, List.take_length,
        List.drop_length, placeCol_nil]
      constructor
      · intro p hp
        rw [List.append_nil] at hp
        obtain ⟨hx, hw⟩ := placeCol_x_w m.wh m.wx m.wy m.ww 0 _ p hp
        refine ⟨hx, ?_⟩
        rw [hw]
        exact sub_add_cancel _ _
      · intro hne
        rw [List.append_nil]
        have hs := placeCol_sum m.wh m.wx m.wy m.ww _ 0 (le_refl 0) hwh hne
        rw [hs, sub_zero]
  · intro hlt hpos
    have hn : (clients.filter (tiledVis m.curtagset)).length ≠ 0 := by
      omega
    have hmin : min (clients.filter (tiledVis m.curtagset)).length
        m.nmaster.toNat = m.nmaster.toNat := min_eq_right (by omega)
    have hmwv :
        (if m.nmaster
            < ((clients.filter (tiledVis m.curtagset)).length : Int)
         then (if m.nmaster ≠ 0 then ⌊(m.ww : ℚ) * m.mfact⌋ else 0)
         else m.ww) = ⌊(m.ww : ℚ) * m.mfact⌋ := by
      rw [if_pos hlt, if_pos (by omega : m.nmaster ≠ 0)]
    rw [tile_pos m clients hn, hmwv, hmin]
    have hAlen : (placeCol m.wh m.wx m.wy ⌊(m.ww : ℚ) * m.mfact⌋ 0
        ((clients.filter (tiledVis m.curtagset)).take
          m.nmaster.toNat)).length = m.nmaster.toNat := by
      rw [placeCol_len, List.length_take]
      omega
    rw [List.take_left' hAlen, List.drop_left' hAlen]
    refine ⟨?_, ?_, ?_, ?_⟩
    · intro p hp
      obtain ⟨hx, hw⟩ := placeCol_x_w m.wh m.wx m.wy _ 0 _ p hp
      refine ⟨hx, ?_⟩
      rw [hw]
      exact sub_add_cancel _ _
    · intro p hp
      obtain ⟨hx, hw⟩ := placeCol_x_w m.wh (m.wx + ⌊(m.ww : ℚ) * m.mfact⌋)
        m.wy _ 0 _ p hp
      refine ⟨hx, ?_⟩
      rw [hw]
      exact sub_add_cancel _ _
    · have hne : (clients.filter (tiledVis m.curtagset)).take
          m.nmaster.toNat ≠ [] := by
        apply List.ne_nil_of_length_pos
        rw [List.length_take]
        omega
      have hs := placeCol_sum m.wh m.wx m.wy ⌊(m.ww : ℚ) * m.mfact⌋ _ 0
        (le_refl 0) hwh hne
      rw [hs, sub_zero]
    · have hne : (clients.filter (tiledVis m.curtagset)).drop
          m.nmaster.toNat ≠ [] := by
        apply List.ne_nil_of_length_pos
        rw [List.length_drop]
        omega
      have hs := placeCol_sum m.wh (m.wx + ⌊(m.ww : ℚ) * m.mfact⌋) m.wy
        (m.ww - ⌊(m.ww : ℚ) * m.mfact⌋) _ 0 (le_refl 0) hwh hne
      rw [hs, sub_zero]

/-- Witness for `tile_ok`: the base monitor (`nmaster = 1`,
`mfact = 0.55`) with two tiled visible clients and one floating one. -/
theorem tile_ok_witness :
    (0 : Int) ≤ monBase.wh ∧
    (((tile monBase clsW).map Prod.fst
      = clsW.filter (tiledVis monBase.curtagset)) ∧
    ((((clsW.filter (tiledVis monBase.curtagset)).length : Int)
        ≤ monBase.nmaster →
      (∀ p ∈ tile monBase clsW,
        p.2.x = monBase.wx ∧ p.2.w + 2 * p.1.bw = monBase.ww) ∧
      (clsW.filter (tiledVis monBase.curtagset) ≠ [] →
        ((tile monBase clsW).map (fun p => p.2.h + 2 * p.1.bw)).sum
          = monBase.wh))) ∧
    (monBase.nmaster
        < ((clsW.filter (tiledVis monBase.curtagset)).length : Int) →
      0 < monBase.nmaster →
      (∀ p ∈ (tile monBase clsW).take monBase.nmaster.toNat,
        p.2.x = monBase.wx ∧
        p.2.w + 2 * p.1.bw = ⌊(monBase.ww : ℚ) * monBase.mfact⌋) ∧
      (∀ p ∈ (tile monBase clsW).drop monBase.nmaster.toNat,
        p.2.x = monBase.wx + ⌊(monBase.ww : ℚ) * monBase.mfact⌋ ∧
        p.2.w + 2 * p.1.bw
          = monBase.ww - ⌊(monBase.ww : ℚ) * monBase.mfact⌋) ∧
      (((tile monBase clsW).take monBase.nmaster.toNat).map
          (fun p => p.2.h + 2 * p.1.bw)).sum = monBase.wh ∧
      (((tile monBase clsW).drop monBase.nmaster.toNat).map
          (fun p => p.2.h + 2 * p.1.bw)).sum = monBase.wh)) :=
  ⟨by decide, tile_ok monBase clsW (by decide)⟩

end Zwm
